import Mathlib

/-!
Shallow embedding of the protobuf-to-json decoder (src/varint.rs, src/message.rs,
src/parser.rs).  Byte buffers are modelled as `List Nat` (each element a byte value),
Rust slices become suffixes of the input list, machine-integer overflow is made
explicit with `% 2 ^ 64`, and fallible operations return `Option`.
-/

namespace Pb2Json

/-- Loop body of `decode_var` (src/varint.rs, lines 12-25).  Iterates over the bytes
of `src`, accumulating `result |= (b & 0x7F) << shift` (a `u64` or-assign, hence the
`% 2 ^ 64` truncation) and `shift += 7`; it stops at the first byte with the
continuation bit (`b & 0x80`) clear or once `shift` exceeds `9 * 7 = 63`, reporting
success exactly when the stopping byte had the continuation bit clear.  Returns the
Rust loop state `(success, result, shift)`; reaching the end of the slice leaves
`success = false`.  `b &&& 127` is `b & DROP_MSB`. -/
def decodeVarLoop : List Nat → Nat → Nat → Bool × Nat × Nat
  | [], result, shift => (false, result, shift)
  | b :: rest, result, shift =>
    let result2 := result ||| ((b &&& 127) <<< shift % 2 ^ 64)
    let shift2 := shift + 7
    if b &&& 128 = 0 ∨ shift2 > 63 then
      (decide (b &&& 128 = 0), result2, shift2)
    else
      decodeVarLoop rest result2 shift2

/-- `decode_var` (src/varint.rs, lines 11-33): on success the slice of the caller is
advanced past the `shift / 7` consumed bytes (here: the advanced slice is returned);
on failure the Rust function returns `Err(())` without touching the slice, which the
`Option` result models. -/
def decode_var (src : List Nat) : Option (Nat × List Nat) :=
  match decodeVarLoop src 0 0 with
  | (true, result, shift) => some (result, src.drop (shift / 7))
  | (false, _, _) => none

/-- Protocol buffer wire types (src/message.rs, lines 110-125). -/
inductive WireType where
  | Varint
  | Fixed64
  | LengthDelimited
  | Fixed32
  | Invalid (wt : Nat)
deriving DecidableEq

/-- `impl From<u8> for WireType` (src/message.rs, lines 127-137). -/
def WireType.ofNat (value : Nat) : WireType :=
  match value with
  | 0 => .Varint
  | 1 => .Fixed64
  | 2 => .LengthDelimited
  | 5 => .Fixed32
  | other => .Invalid other

/-- Decoded protocol buffer value (src/message.rs, lines 34-58).  Byte spans borrow
from the input buffer; here they are the corresponding sublists. -/
inductive FieldValue where
  | Varint (v : Nat)
  | Fixed64 (v : Nat)
  | LengthDelimited (bytes : List Nat)
  | Fixed32 (v : Nat)
  | Invalid (wt : Nat) (rest : List Nat)
  | Incomplete (wt : WireType) (rest : List Nat)
deriving DecidableEq

/-- Decoded protocol buffer field (src/message.rs, lines 19-25). -/
structure Field where
  number : Nat
  value : FieldValue
deriving DecidableEq

/-- Protocol buffer message (src/message.rs, lines 5-14). -/
structure Message where
  fields : List Field
  garbage : Option (List Nat)
deriving DecidableEq

/-- Little-endian value of a byte list (`u64::from_le_bytes` / `u32::from_le_bytes`
in src/message.rs): the first byte is least significant. -/
def fromLE (bytes : List Nat) : Nat :=
  bytes.foldr (fun b acc => b + 256 * acc) 0

/-- `FieldValue::decode` (src/message.rs, lines 61-104).  The mutable slice cursor
is modelled by returning the advanced slice next to the decoded value.  Note that in
the `Invalid` arm and in all `Incomplete` arms the Rust code does not advance the
cursor (for `LengthDelimited` the cursor has already moved past the length prefix
when the remaining bytes run short). -/
def FieldValue.decode (data : List Nat) (wire_type : WireType) : FieldValue × List Nat :=
  match wire_type with
  | .Varint =>
    match decode_var data with
    | some (v, rest) => (.Varint v, rest)
    | none => (.Incomplete .Varint data, data)
  | .Fixed64 =>
    if data.length < 8 then (.Incomplete .Fixed64 data, data)
    else (.Fixed64 (fromLE (data.take 8)), data.drop 8)
  | .LengthDelimited =>
    match decode_var data with
    | some (len, rest) =>
      if rest.length < len then (.Incomplete .LengthDelimited rest, rest)
      else (.LengthDelimited (rest.take len), rest.drop len)
    | none => (.Incomplete .LengthDelimited data, data)
  | .Fixed32 =>
    if data.length < 4 then (.Incomplete .Fixed32 data, data)
    else (.Fixed32 (fromLE (data.take 4)), data.drop 4)
  | .Invalid wt => (.Invalid wt data, data)

/-- The loop of `Parser::parse_once` (src/parser.rs, lines 124-142), with explicit
fuel for structural recursion; each successful tag decode consumes at least one
byte, so fuel `data.length + 1` is always sufficient (`parseOnceAux_fuel`).  Next to
the `Message` it returns the number of bytes consumed by fields (tag plus value),
used to state the consumption invariant.  `tag >>> 3` is the field number and
`tag &&& 7` the wire type code, as in lines 137-138. -/
def parseOnceAux : Nat → List Nat → Message × Nat
  | 0, data => (⟨[], some data⟩, 0)
  | fuel + 1, data =>
    if data.isEmpty then (⟨[], none⟩, 0)
    else
      match decode_var data with
      | none => (⟨[], some data⟩, 0)
      | some (tag, rest) =>
        let number := tag >>> 3
        let wire_type := WireType.ofNat (tag &&& 7)
        let vr := FieldValue.decode rest wire_type
        let mc := parseOnceAux fuel vr.2
        (⟨⟨number, vr.1⟩ :: mc.1.fields, mc.1.garbage⟩, (data.length - vr.2.length) + mc.2)

/-- `Parser::parse_once` (src/parser.rs, lines 116-145): single-layer decode of a
byte buffer into a `Message`. -/
def parse_once (data : List Nat) : Message :=
  (parseOnceAux (data.length + 1) data).1

/-- Total number of bytes consumed by the fields of `parse_once data` (tag bytes
plus value bytes; garbage not included). -/
def parseOnceConsumed (data : List Nat) : Nat :=
  (parseOnceAux (data.length + 1) data).2

/-- Length of the garbage span of a message, `0` when there is none. -/
def garbageLen (m : Message) : Nat :=
  match m.garbage with
  | some g => g.length
  | none => 0

/-- UTF-8 decoding of a byte list into its unicode scalar values, `some` exactly on
valid UTF-8.  This models both `simdutf8::basic::from_utf8` (parser.rs, line 42) and
`std::str::from_utf8` (parser.rs, line 75), which accept the same byte sequences
(the Unicode standard: no overlong forms, no surrogates, at most U+10FFFF). -/
def utf8Decode : List Nat → Option (List Nat)
  | [] => some []
  | b0 :: rest =>
    if b0 < 0x80 then
      match utf8Decode rest with
      | some cps => some (b0 :: cps)
      | none => none
    else if 0xC2 ≤ b0 ∧ b0 ≤ 0xDF then
      match rest with
      | b1 :: rest1 =>
        if 0x80 ≤ b1 ∧ b1 ≤ 0xBF then
          match utf8Decode rest1 with
          | some cps => some (((b0 - 0xC0) * 0x40 + (b1 - 0x80)) :: cps)
          | none => none
        else none
      | [] => none
    else if 0xE0 ≤ b0 ∧ b0 ≤ 0xEF then
      match rest with
      | b1 :: b2 :: rest2 =>
        if (if b0 = 0xE0 then 0xA0 ≤ b1 ∧ b1 ≤ 0xBF
            else if b0 = 0xED then 0x80 ≤ b1 ∧ b1 ≤ 0x9F
            else 0x80 ≤ b1 ∧ b1 ≤ 0xBF) ∧
           (0x80 ≤ b2 ∧ b2 ≤ 0xBF) then
          match utf8Decode rest2 with
          | some cps =>
            some (((b0 - 0xE0) * 0x1000 + (b1 - 0x80) * 0x40 + (b2 - 0x80)) :: cps)
          | none => none
        else none
      | _ => none
    else if 0xF0 ≤ b0 ∧ b0 ≤ 0xF4 then
      match rest with
      | b1 :: b2 :: b3 :: rest3 =>
        if (if b0 = 0xF0 then 0x90 ≤ b1 ∧ b1 ≤ 0xBF
            else if b0 = 0xF4 then 0x80 ≤ b1 ∧ b1 ≤ 0x8F
            else 0x80 ≤ b1 ∧ b1 ≤ 0xBF) ∧
           (0x80 ≤ b2 ∧ b2 ≤ 0xBF) ∧ (0x80 ≤ b3 ∧ b3 ≤ 0xBF) then
          match utf8Decode rest3 with
          | some cps =>
            some (((b0 - 0xF0) * 0x40000 + (b1 - 0x80) * 0x1000 +
                (b2 - 0x80) * 0x40 + (b3 - 0x80)) :: cps)
          | none => none
        else none
      | _ => none
    else none

/-- `char::is_control` (used in parser.rs, line 43): the Unicode Cc category,
U+0000 to U+001F and U+007F to U+009F. -/
def isControl (c : Nat) : Bool :=
  decide (c < 0x20) || (decide (0x7F ≤ c) && decide (c ≤ 0x9F))

/-- `utf8_str.is_ok()` of parser.rs, line 53. -/
def isUtf8 (data : List Nat) : Bool :=
  (utf8Decode data).isSome

/-- `utf8_str.is_ok_and(|s| s.chars().all(|c| !c.is_control()))` of parser.rs,
line 43. -/
def utf8NoControl (data : List Nat) : Bool :=
  match utf8Decode data with
  | some cps => cps.all fun c => !isControl c
  | none => false

/-- Character of the standard base64 alphabet (`base64::prelude::BASE64_STANDARD`),
as an ASCII code. -/
def b64Char (i : Nat) : Nat :=
  if i < 26 then 65 + i
  else if i < 52 then 97 + (i - 26)
  else if i < 62 then 48 + (i - 52)
  else if i = 62 then 43
  else 47

/-- `BASE64_STANDARD.encode` (parser.rs, lines 78 and 81): standard alphabet with
`=` (ASCII 61) padding, three input bytes per four output characters. -/
def base64Encode : List Nat → List Nat
  | [] => []
  | [b0] => [b64Char (b0 / 4), b64Char (b0 % 4 * 16), 61, 61]
  | [b0, b1] => [b64Char (b0 / 4), b64Char (b0 % 4 * 16 + b1 / 16), b64Char (b1 % 16 * 4), 61]
  | b0 :: b1 :: b2 :: rest =>
    b64Char (b0 / 4) :: b64Char (b0 % 4 * 16 + b1 / 16) ::
      b64Char (b1 % 16 * 4 + b2 / 64) :: b64Char (b2 % 64) :: base64Encode rest

/-- Worker for `utf8Lossy`, with explicit fuel for structural recursion; every
recursive call is on a strictly shorter list, so fuel `l.length + 1` always
suffices. -/
def utf8LossyAux : Nat → List Nat → List Nat
  | 0, _ => []
  | fuel + 1, l =>
    match l with
    | [] => []
    | b0 :: rest =>
      if b0 < 0x80 then b0 :: utf8LossyAux fuel rest
      else if 0xC2 ≤ b0 ∧ b0 ≤ 0xDF then
        match rest with
        | b1 :: rest1 =>
          if 0x80 ≤ b1 ∧ b1 ≤ 0xBF then
            ((b0 - 0xC0) * 0x40 + (b1 - 0x80)) :: utf8LossyAux fuel rest1
          else 0xFFFD :: utf8LossyAux fuel (b1 :: rest1)
        | [] => [0xFFFD]
      else if 0xE0 ≤ b0 ∧ b0 ≤ 0xEF then
        match rest with
        | b1 :: rest1 =>
          if (if b0 = 0xE0 then 0xA0 ≤ b1 ∧ b1 ≤ 0xBF
              else if b0 = 0xED then 0x80 ≤ b1 ∧ b1 ≤ 0x9F
              else 0x80 ≤ b1 ∧ b1 ≤ 0xBF) then
            match rest1 with
            | b2 :: rest2 =>
              if 0x80 ≤ b2 ∧ b2 ≤ 0xBF then
                ((b0 - 0xE0) * 0x1000 + (b1 - 0x80) * 0x40 + (b2 - 0x80)) ::
                  utf8LossyAux fuel rest2
              else 0xFFFD :: utf8LossyAux fuel (b2 :: rest2)
            | [] => [0xFFFD]
          else 0xFFFD :: utf8LossyAux fuel (b1 :: rest1)
        | [] => [0xFFFD]
      else if 0xF0 ≤ b0 ∧ b0 ≤ 0xF4 then
        match rest with
        | b1 :: rest1 =>
          if (if b0 = 0xF0 then 0x90 ≤ b1 ∧ b1 ≤ 0xBF
              else if b0 = 0xF4 then 0x80 ≤ b1 ∧ b1 ≤ 0x8F
              else 0x80 ≤ b1 ∧ b1 ≤ 0xBF) then
            match rest1 with
            | b2 :: rest2 =>
              if 0x80 ≤ b2 ∧ b2 ≤ 0xBF then
                match rest2 with
                | b3 :: rest3 =>
                  if 0x80 ≤ b3 ∧ b3 ≤ 0xBF then
                    ((b0 - 0xF0) * 0x40000 + (b1 - 0x80) * 0x1000 +
                      (b2 - 0x80) * 0x40 + (b3 - 0x80)) :: utf8LossyAux fuel rest3
                  else 0xFFFD :: utf8LossyAux fuel (b3 :: rest3)
                | [] => [0xFFFD]
              else 0xFFFD :: utf8LossyAux fuel (b2 :: rest2)
            | [] => [0xFFFD]
          else 0xFFFD :: utf8LossyAux fuel (b1 :: rest1)
        | [] => [0xFFFD]
      else 0xFFFD :: utf8LossyAux fuel rest

/-- `String::from_utf8_lossy` (parser.rs, line 88): decode UTF-8, replacing each
maximal subpart of an ill-formed subsequence with U+FFFD, per the substitution
algorithm implemented by the Rust standard library. -/
def utf8Lossy (l : List Nat) : List Nat :=
  utf8LossyAux (l.length + 1) l

/-- JSON values as produced by the projector (`serde_json::Value` restricted to
what parser.rs constructs).  Strings are lists of unicode scalar values; objects
are association lists keyed by the field number (the Rust code keys by its decimal
string `field.number.to_string()`, an injective image of the number). -/
inductive Json where
  | num (n : Nat)
  | str (cps : List Nat)
  | arr (elems : List Json)
  | obj (entries : List (Nat × Json))

/-- Whether a JSON value is an object. -/
def Json.isObject : Json → Bool
  | .obj _ => true
  | _ => false

/-- Whether a JSON value is a string. -/
def Json.isString : Json → Bool
  | .str _ => true
  | _ => false

/-- Whether a JSON value is a scalar (number or string). -/
def Json.isScalar : Json → Bool
  | .num _ => true
  | .str _ => true
  | _ => false

/-- `BytesEncoding` (src/parser.rs, lines 151-168).  The `Stfu8` variant is behind
a cargo feature that is not enabled and is omitted. -/
inductive BytesEncoding where
  | Auto
  | Base64
  | ByteArray
  | StringLossy
deriving DecidableEq

/-- The byte-encoding fallback for a length-delimited value that was not accepted
as a nested message (src/parser.rs, lines 73-91). -/
def encodeBytes (cfg : BytesEncoding) (bytes : List Nat) : Json :=
  match cfg with
  | .Auto =>
    match utf8Decode bytes with
    | some cps => .str cps
    | none => .str (base64Encode bytes)
  | .Base64 => .str (base64Encode bytes)
  | .ByteArray => .arr (bytes.map .num)
  | .StringLossy => .str (utf8Lossy bytes)

/-- The modification applied to an existing entry when its key is inserted again
(src/parser.rs, lines 101-106): push onto an existing array, otherwise replace the
old value with the two-element array of old and new. -/
def jstepVal (old v : Json) : Json :=
  match old with
  | .arr xs => .arr (xs ++ [v])
  | _ => .arr [old, v]

/-- The map-insertion step of the projector loop (src/parser.rs, lines 100-109):
if the key is present, modify its entry with `jstepVal`; otherwise append the new
entry. -/
def updateMap (m : List (Nat × Json)) (key : Nat) (v : Json) : List (Nat × Json) :=
  match m.lookup key with
  | some _ => m.map fun p => if p.1 = key then (p.1, jstepVal p.2 v) else p
  | none => m ++ [(key, v)]

/-- The `let value = match field.value` conversion of one field value
(src/parser.rs, lines 65-98).  `nested` is the recursive projector attempt used for
length-delimited values; `none` is returned exactly for `Invalid` and `Incomplete`
values, whose handling depends on the nesting level.  The `Varint` arm mirrors the
`v as usize` narrowing of the `u128` (64-bit target). -/
def fieldJson (nested : List Nat → Option Json) (cfg : BytesEncoding) :
    FieldValue → Option Json
  | .Varint v => some (.num (v % 2 ^ 64))
  | .Fixed64 v => some (.num v)
  | .Fixed32 v => some (.num v)
  | .LengthDelimited bytes =>
    some
      (match nested bytes with
      | some j => j
      | none => encodeBytes cfg bytes)
  | .Invalid _ _ => none
  | .Incomplete _ _ => none

/-- The `for field in fields` loop of `parse_to_json` (src/parser.rs, lines
63-110), accumulating the object `m`.  An `Invalid`/`Incomplete` value (`fieldJson`
returns `none`) breaks out of the loop at the first layer, keeping the object
accumulated so far, and aborts the whole call (`none`) otherwise — lines 94-97. -/
def processFields (nested : List Nat → Option Json) (cfg : BytesEncoding)
    (first_layer : Bool) : List Field → List (Nat × Json) → Option (List (Nat × Json))
  | [], m => some m
  | fld :: rest, m =>
    match fieldJson nested cfg fld.value with
    | some v => processFields nested cfg first_layer rest (updateMap m fld.number v)
    | none => if first_layer then some m else none

/-- `Parser::parse_to_json` (src/parser.rs, lines 36-113), with explicit recursion
fuel: every recursive call is on the byte span of a length-delimited field, which is
at least two bytes (its tag and length prefix) shorter than the current buffer, so
fuel `data.length + 1` is always sufficient and the `0` case is unreachable from
`parse`. -/
def parse_to_json (cfg : BytesEncoding) : Nat → List Nat → Bool → Option Json
  | 0, _, _ => none
  | fuel + 1, data, first_layer =>
    if data.isEmpty then none
    else if !first_layer && utf8NoControl data then none
    else
      let msg := parse_once data
      if msg.fields.isEmpty then none
      else if !first_layer && isUtf8 data &&
          (msg.garbage.isSome ||
            msg.fields.any fun fld => decide (19000 ≤ fld.number) && decide (fld.number < 20000)) then
        none
      else
        match processFields (fun bytes => parse_to_json cfg fuel bytes false) cfg
            first_layer msg.fields [] with
        | some m => some (.obj m)
        | none => none

/-- `Parser::parse` (src/parser.rs, lines 31-33): the projector entry point,
`parse_to_json(data, true)`. -/
def parse (cfg : BytesEncoding) (data : List Nat) : Option Json :=
  parse_to_json cfg (data.length + 1) data true

/-- The evolution of the value stored at one key across repeated insertions: the
first occurrence stores the value, later ones go through `jstepVal`. -/
def jstep (cur : Option Json) (v : Json) : Option Json :=
  match cur with
  | none => some v
  | some old => some (jstepVal old v)

/-- The values that the projector loop inserts at key `n`, in encounter order:
the successful `fieldJson` conversions of the fields numbered `n`. -/
def fieldOcc (nested : List Nat → Option Json) (cfg : BytesEncoding)
    (fields : List Field) (n : Nat) : List Json :=
  fields.filterMap fun fld =>
    if fld.number = n then fieldJson nested cfg fld.value else none

/-- Worker for `encode_var`, structurally recursive on the group count. -/
def encodeVarAux : Nat → Nat → List Nat
  | 0, n => [n % 128]
  | fuel + 1, n =>
    if n < 128 then [n]
    else (n % 128 + 128) :: encodeVarAux fuel (n / 128)

/-- Modelled from the spec: the repository contains no varint encoder, and the
round-trip property of spec sections 3, 4.1 and 8 refers to the standard base-128
continuation-bit encoding — least-significant 7-bit group first, the high bit of
every byte but the last set, at most 10 groups (enough for any value below
`2 ^ 70`, in particular any `u64`). -/
def encode_var (n : Nat) : List Nat :=
  encodeVarAux 10 n

example : decode_var [0x00] = some (0, []) := by decide
example : decode_var [0x01] = some (1, []) := by decide
example : decode_var [0xAC, 0x02] = some (300, []) := by decide
example : decode_var [0xFF, 0xFF, 0xFF] = none := by decide
example : decode_var [0x80] = none := by decide
example : decode_var [] = none := by decide
example :
    decode_var [0xFF, 0xFF, 0xFF, 0xFF, 0xFF, 0xFF, 0xFF, 0xFF, 0xFF, 0x01] =
      some (2 ^ 64 - 1, []) := by decide

example :
    parse_once [8, 150, 1] = ⟨[⟨1, .Varint 150⟩], none⟩ := by decide
example :
    parse_once [11, 8] =
      ⟨[⟨1, .Invalid 3 [8]⟩, ⟨1, .Incomplete .Varint []⟩], none⟩ := by decide

/-- The unit test `test_parse_1` of the repository, reproduced on the embedding. -/
theorem parse_example_1 :
    parse .Auto
        [0x0d, 0x1c, 0x00, 0x00, 0x00, 0x12, 0x03, 0x59, 0x6f, 0x75, 0x1a, 0x02,
          0x4d, 0x65, 0x20, 0x2b, 0x2a, 0x0a, 0x0a, 0x06, 0x61, 0x62, 0x63, 0x31,
          0x32, 0x33, 0x12, 0x00] =
      some (.obj
        [(1, .num 28), (2, .str [0x59, 0x6f, 0x75]), (3, .str [0x4d, 0x65]),
          (4, .num 43),
          (5, .obj [(1, .str [0x61, 0x62, 0x63, 0x31, 0x32, 0x33]), (2, .str [])])]) := by
  rfl

/-- The unit test `test_parse_encoding_bytearray` of the repository, reproduced on
the embedding. -/
theorem parse_example_bytearray :
    parse .ByteArray [0x4a, 0x05, 0x00, 0x01, 0x02, 0x03, 0x04] =
      some (.obj [(9, .arr [.num 0, .num 1, .num 2, .num 3, .num 4])]) := by
  rfl

/-- The unit test `test_parse_num_array` of the repository, reproduced on the
embedding. -/
theorem parse_example_num_array :
    parse .Auto [0x4a, 0x05, 0x00, 0x01, 0x02, 0x03, 0x04] =
      some (.obj [(9, .str [0, 1, 2, 3, 4])]) := by
  rfl

example : parse .Auto [] = none := by rfl

theorem decodeVarLoop_true_shift (src : List Nat) :
    ∀ r s res s2, decodeVarLoop src r s = (true, res, s2) →
      ∃ k, 1 ≤ k ∧ k ≤ src.length ∧ s2 = s + 7 * k := by
  induction src with
  | nil => intro r s res s2 h; simp [decodeVarLoop] at h
  | cons b rest ih =>
    intro r s res s2 h
    simp only [decodeVarLoop] at h
    split at h
    · simp only [Prod.mk.injEq] at h
      refine ⟨1, by omega, by simp, ?_⟩
      omega
    · obtain ⟨k, hk1, hk2, hk3⟩ := ih _ _ _ _ h
      exact ⟨k + 1, by omega, by simp; omega, by omega⟩

theorem decodeVarLoop_result_lt (src : List Nat) :
    ∀ r s res s2, r < 2 ^ 64 → decodeVarLoop src r s = (true, res, s2) →
      res < 2 ^ 64 := by
  induction src with
  | nil => intro r s res s2 _ h; simp [decodeVarLoop] at h
  | cons b rest ih =>
    intro r s res s2 hr h
    have hlt : r ||| (b &&& 127) <<< s % 2 ^ 64 < 2 ^ 64 :=
      Nat.or_lt_two_pow hr (Nat.mod_lt _ (by norm_num))
    simp only [decodeVarLoop] at h
    split at h
    · simp only [Prod.mk.injEq] at h
      omega
    · exact ih _ _ _ _ hlt h

theorem decodeVarLoop_false_of_msb (src : List Nat) :
    ∀ r s, (∀ b ∈ src, b &&& 128 ≠ 0) → (decodeVarLoop src r s).1 = false := by
  induction src with
  | nil => intro r s _; simp [decodeVarLoop]
  | cons b rest ih =>
    intro r s hmsb
    have hb : b &&& 128 ≠ 0 := hmsb b (by simp)
    simp only [decodeVarLoop]
    split
    · simp [hb]
    · exact ih _ _ fun x hx => hmsb x (by simp [hx])

theorem decode_var_some (src : List Nat) (v : Nat) (rest : List Nat)
    (h : decode_var src = some (v, rest)) :
    v < 2 ^ 64 ∧ ∃ k, 1 ≤ k ∧ k ≤ src.length ∧ rest = src.drop k := by
  unfold decode_var at h
  split at h
  next res shift heq =>
    obtain ⟨k, hk1, hk2, hk3⟩ := decodeVarLoop_true_shift src 0 0 res shift heq
    have hres : res < 2 ^ 64 :=
      decodeVarLoop_result_lt src 0 0 res shift (by norm_num) heq
    obtain ⟨hv, hrest⟩ := Option.some.injEq _ _ ▸ h
    cases h
    refine ⟨hres, k, hk1, hk2, ?_⟩
    have : shift / 7 = k := by omega
    rw [this]
  next => cases h

theorem decode_var_consumes (src : List Nat) (v : Nat) (rest : List Nat)
    (h : decode_var src = some (v, rest)) : rest.length < src.length := by
  obtain ⟨-, k, hk1, hk2, hk3⟩ := decode_var_some src v rest h
  subst hk3
  simp only [List.length_drop]
  omega

theorem decode_var_none_of_msb (src : List Nat) (h : ∀ b ∈ src, b &&& 128 ≠ 0) :
    decode_var src = none := by
  unfold decode_var
  split
  next res shift heq =>
    have := decodeVarLoop_false_of_msb src 0 0 h
    rw [heq] at this
    simp at this
  next => rfl

theorem FieldValue.decode_suffix (data : List Nat) (wt : WireType) :
    ∃ j, j ≤ data.length ∧ (FieldValue.decode data wt).2 = data.drop j := by
  cases wt with
  | Varint =>
    simp only [FieldValue.decode]
    split
    next v rest h =>
      obtain ⟨-, k, -, hk2, hk3⟩ := decode_var_some data v rest h
      exact ⟨k, hk2, hk3⟩
    next => exact ⟨0, by omega, rfl⟩
  | Fixed64 =>
    simp only [FieldValue.decode]
    split
    · exact ⟨0, by omega, rfl⟩
    · exact ⟨8, by omega, rfl⟩
  | LengthDelimited =>
    simp only [FieldValue.decode]
    split
    next len rest h =>
      obtain ⟨-, k, -, hk2, hk3⟩ := decode_var_some data len rest h
      split
      · exact ⟨k, hk2, hk3⟩
      next hge =>
        refine ⟨k + len, ?_, by rw [hk3, List.drop_drop, Nat.add_comm]⟩
        have : rest.length = data.length - k := by rw [hk3]; simp
        omega
    next => exact ⟨0, by omega, rfl⟩
  | Fixed32 =>
    simp only [FieldValue.decode]
    split
    · exact ⟨0, by omega, rfl⟩
    · exact ⟨4, by omega, rfl⟩
  | Invalid wt => exact ⟨0, by omega, rfl⟩

theorem parseOnceAux_fuel :
    ∀ f g data, data.length < f → data.length < g →
      parseOnceAux f data = parseOnceAux g data := by
  intro f
  induction f with
  | zero => intro g data h; omega
  | succ fuel ih =>
    intro g data hf hg
    match g with
    | 0 => omega
    | g' + 1 =>
      simp only [parseOnceAux]
      split
      · rfl
      next hne =>
        split
        · rfl
        next tag rest hdec =>
          have hrest : rest.length < data.length := decode_var_consumes data tag rest hdec
          obtain ⟨j, hj1, hj2⟩ :=
            FieldValue.decode_suffix rest (WireType.ofNat (tag &&& 7))
          have hlen : (FieldValue.decode rest (WireType.ofNat (tag &&& 7))).2.length <
              data.length := by
            rw [hj2]
            simp only [List.length_drop]
            omega
          rw [ih g' _ (by omega) (by omega)]

theorem parseOnceAux_spec :
    ∀ f data, data.length < f →
      (parseOnceAux f data).2 + garbageLen (parseOnceAux f data).1 = data.length := by
  intro f
  induction f with
  | zero => intro data h; omega
  | succ fuel ih =>
    intro data hf
    simp only [parseOnceAux]
    split
    next hemp =>
      simp only [List.isEmpty_iff] at hemp
      simp [garbageLen, hemp]
    next hne =>
      split
      next => simp [garbageLen]
      next tag rest hdec =>
        have hrest : rest.length < data.length := decode_var_consumes data tag rest hdec
        obtain ⟨j, hj1, hj2⟩ :=
          FieldValue.decode_suffix rest (WireType.ofNat (tag &&& 7))
        have hlen : (FieldValue.decode rest (WireType.ofNat (tag &&& 7))).2.length <
            data.length := by
          rw [hj2]
          simp only [List.length_drop]
          omega
        have := ih (FieldValue.decode rest (WireType.ofNat (tag &&& 7))).2 (by omega)
        simp only [garbageLen] at this ⊢
        omega

/-- C1: contrary to the claim (and to the doc comment on `FieldValue::Invalid` in
src/message.rs, lines 47-53), an unrecognized wire-type code does not consume the
rest of the bytes of the message: `FieldValue::decode` returns `Invalid` without
advancing the cursor, so on input `[0x0B, 0x08]` (tag with wire type 3, then one
more byte) the next loop iteration of `parse_once` sees the non-empty remainder
`[0x08]` and decodes a second field from it. -/
theorem c1_invalid_wire_type_not_consumed :
    (FieldValue.decode [8] (.Invalid 3)).2 = [8] ∧
      parse_once [11, 8] =
        ⟨[⟨1, .Invalid 3 [8]⟩, ⟨1, .Incomplete .Varint []⟩], none⟩ := by
  decide

/-- C2: the single-layer decode is total — for every byte buffer the bytes consumed
by fields plus the garbage length equal the input length, and the loop terminates
within `data.length` iterations (any sufficient fuel computes the same result). -/
theorem c2_wire_decoder_totality (data : List Nat) :
    parseOnceConsumed data + garbageLen (parse_once data) = data.length ∧
      ∀ f, data.length < f → parseOnceAux f data = parseOnceAux (data.length + 1) data := by
  refine ⟨parseOnceAux_spec (data.length + 1) data (by omega), ?_⟩
  intro f hf
  exact parseOnceAux_fuel f (data.length + 1) data hf (by omega)

/-- Witness for `c2_wire_decoder_totality` at the concrete buffer
`[0x08, 0x96, 0x01]` (field 1, varint 150). -/
theorem c2_witness :
    parseOnceConsumed [8, 150, 1] + garbageLen (parse_once [8, 150, 1]) = 3 ∧
      parseOnceAux 7 [8, 150, 1] = parseOnceAux 4 [8, 150, 1] :=
  ⟨(c2_wire_decoder_totality [8, 150, 1]).1,
    (c2_wire_decoder_totality [8, 150, 1]).2 7 (by decide)⟩

/-- C7: a `LengthDelimited` field value always carries a span whose length equals
the varint length prefix, and when fewer bytes remain than the prefix demands the
result is `Incomplete`, never a truncated `LengthDelimited`. -/
theorem c7_length_delimited_exact (data : List Nat) :
    (∀ bs, (FieldValue.decode data .LengthDelimited).1 = .LengthDelimited bs →
      ∃ len rest, decode_var data = some (len, rest) ∧ bs.length = len ∧
        bs = rest.take len) ∧
      (∀ len rest, decode_var data = some (len, rest) → rest.length < len →
        (FieldValue.decode data .LengthDelimited).1 = .Incomplete .LengthDelimited rest) := by
  simp only [FieldValue.decode]
  split
  next len0 rest0 hdec =>
    split
    next hshort =>
      constructor
      · intro bs hbs
        cases hbs
      · intro len rest h hlt
        rw [hdec] at h
        cases h
        rfl
    next hge =>
      constructor
      · intro bs hbs
        cases hbs
        refine ⟨len0, rest0, hdec, ?_, rfl⟩
        simp only [List.length_take]
        omega
      · intro len rest h hlt
        rw [hdec] at h
        cases h
        omega
  next hdec =>
    constructor
    · intro bs hbs
      cases hbs
    · intro len rest h hlt
      rw [hdec] at h
      cases h

/-- Witness for `c7_length_delimited_exact`: a complete span (`[2, 65, 66]`, length
prefix 2 with exactly two bytes) and a short one (`[1]`, length prefix 1 with no
bytes left). -/
theorem c7_witness :
    (∃ len rest, decode_var [2, 65, 66] = some (len, rest) ∧
      ([65, 66] : List Nat).length = len ∧ ([65, 66] : List Nat) = rest.take len) ∧
      (FieldValue.decode [1] .LengthDelimited).1 = .Incomplete .LengthDelimited [] :=
  ⟨(c7_length_delimited_exact [2, 65, 66]).1 [65, 66] (by decide),
    (c7_length_delimited_exact [1]).2 1 [] (by decide) (by decide)⟩

theorem lookup_append (n : Nat) (l1 l2 : List (Nat × Json)) :
    (l1 ++ l2).lookup n =
      match l1.lookup n with
      | some x => some x
      | none => l2.lookup n := by
  induction l1 with
  | nil => simp [List.lookup]
  | cons p rest ih =>
    rcases p with ⟨k, b⟩
    by_cases hk : n = k
    · subst hk
      simp [List.lookup]
    · have hk2 : (n == k) = false := by simp [hk]
      simp only [List.cons_append, List.lookup, hk2]
      exact ih

theorem lookup_map_modify (m : List (Nat × Json)) (key : Nat) (v : Json) (n : Nat) :
    (m.map fun p => if p.1 = key then (p.1, jstepVal p.2 v) else p).lookup n =
      match m.lookup n with
      | some x => some (if n = key then jstepVal x v else x)
      | none => none := by
  induction m with
  | nil => simp [List.lookup]
  | cons p rest ih =>
    rcases p with ⟨k, b⟩
    simp only [List.map_cons]
    by_cases hkey : k = key
    · rw [if_pos (show (k, b).1 = key from hkey)]
      by_cases hn : n = k
      · have hbeq : (n == k) = true := by simp [hn]
        have hnkey : n = key := hn.trans hkey
        simp only [List.lookup, hbeq]
        simp [hnkey]
      · have hbeq : (n == k) = false := by simp [hn]
        simp only [List.lookup, hbeq]
        exact ih
    · rw [if_neg (show ¬(k, b).1 = key from hkey)]
      by_cases hn : n = k
      · have hbeq : (n == k) = true := by simp [hn]
        have hnkey : ¬n = key := hn ▸ hkey
        simp only [List.lookup, hbeq]
        simp [hnkey]
      · have hbeq : (n == k) = false := by simp [hn]
        simp only [List.lookup, hbeq]
        exact ih

theorem updateMap_lookup (m : List (Nat × Json)) (key : Nat) (v : Json) (n : Nat) :
    (updateMap m key v).lookup n =
      if n = key then jstep (m.lookup n) v else m.lookup n := by
  unfold updateMap
  split
  next x hx =>
    rw [lookup_map_modify]
    by_cases hn : n = key
    · subst hn
      simp [hx, jstep]
    · simp only [hn, if_false]
      cases hm : m.lookup n <;> simp [hn]
  next hx =>
    rw [lookup_append]
    by_cases hn : n = key
    · subst hn
      simp [hx, List.lookup, jstep]
    · have hn2 : (n == key) = false := by simp [hn]
      simp only [hn, if_false]
      cases hm : m.lookup n <;> simp [List.lookup, hn2]

theorem processFields_lookup (nested : List Nat → Option Json) (cfg : BytesEncoding)
    (first_layer : Bool) :
    ∀ fields m, (∀ fld ∈ fields, (fieldJson nested cfg fld.value).isSome = true) →
      ∃ m2, processFields nested cfg first_layer fields m = some m2 ∧
        ∀ n, m2.lookup n = (fieldOcc nested cfg fields n).foldl jstep (m.lookup n) := by
  intro fields
  induction fields with
  | nil => intro m _; exact ⟨m, rfl, fun n => by simp [fieldOcc]⟩
  | cons fld rest ih =>
    intro m hall
    have hfld : (fieldJson nested cfg fld.value).isSome = true := hall fld (by simp)
    obtain ⟨v, hv⟩ := Option.isSome_iff_exists.mp hfld
    obtain ⟨m2, hm2, hlook⟩ :=
      ih (updateMap m fld.number v) fun x hx => hall x (by simp [hx])
    refine ⟨m2, ?_, ?_⟩
    · simp only [processFields, hv]
      exact hm2
    · intro n
      rw [hlook n, updateMap_lookup]
      by_cases hn : n = fld.number
      · subst hn
        simp [fieldOcc, hv]
      · have hn2 : ¬fld.number = n := fun h => hn h.symm
        simp [fieldOcc, hn, hn2]

/-- If the value stored at a key is a scalar (number or string), a second insertion
wraps old and new value into a two-element array. -/
theorem jstepVal_scalar (v1 v2 : Json) (h : v1.isScalar = true) :
    jstepVal v1 v2 = .arr [v1, v2] := by
  cases v1 <;> simp_all [Json.isScalar, jstepVal]

/-- C4: when the projector loop meets an `Invalid` or `Incomplete` field value, at
the top level it stops and returns the object accumulated so far (`some`), while at
a non-top level it aborts the whole nested attempt (`none`); illustrated on two
concrete buffers where the field follows a decoded `1: 5` varint field, once at the
top level (partial object) and once inside a length-delimited span (the nested
attempt fails and the span falls back to a string leaf). -/
theorem c4_invalid_incomplete_policy :
    (∀ (nested : List Nat → Option Json) (cfg : BytesEncoding) (n w : Nat)
      (wt : WireType) (r : List Nat) (rest : List Field) (m : List (Nat × Json)),
      processFields nested cfg true (⟨n, .Invalid w r⟩ :: rest) m = some m ∧
        processFields nested cfg false (⟨n, .Invalid w r⟩ :: rest) m = none ∧
        processFields nested cfg true (⟨n, .Incomplete wt r⟩ :: rest) m = some m ∧
        processFields nested cfg false (⟨n, .Incomplete wt r⟩ :: rest) m = none) ∧
      parse .Auto [8, 5, 13, 1] = some (.obj [(1, .num 5)]) ∧
      parse .Auto [10, 4, 8, 5, 13, 1] = some (.obj [(1, .str [8, 5, 13, 1])]) :=
  ⟨fun _ _ _ _ _ _ _ _ => ⟨rfl, rfl, rfl, rfl⟩, rfl, rfl⟩

/-- C5 counterexample: on `[0x28, 0x01, 0x0B, 0x28, 0x02]` field number 5 appears
exactly twice in the decode, with the scalar JSON values 1 and 2, yet the projector
output holds the scalar `1` at key 5 — not the two-element array `[1, 2]` — because
the `Invalid` field between the two occurrences stops top-level processing. -/
theorem c5_counterexample :
    (parse_once [40, 1, 11, 40, 2]).fields.filterMap
        (fun fld => if fld.number = 5 then some fld.value else none) =
      [.Varint 1, .Varint 2] ∧
      fieldJson (fun _ => none) .Auto (.Varint 1) = some (.num 1) ∧
      fieldJson (fun _ => none) .Auto (.Varint 2) = some (.num 2) ∧
      (Json.num 1).isScalar = true ∧ (Json.num 2).isScalar = true ∧
      parse .Auto [40, 1, 11, 40, 2] = some (.obj [(5, .num 1)]) ∧
      Json.num 1 ≠ Json.arr [.num 1, .num 2] :=
  ⟨rfl, rfl, rfl, rfl, rfl, rfl, fun h => Json.noConfusion h⟩

/-- C5 amended: in one projector decode in which every field converts to a JSON
value (so no `Invalid`/`Incomplete` field stops the loop early), a field number
whose inserted values are exactly the two scalars `v1, v2` ends up with the
two-element array `[v1, v2]` in encounter order, and a field number with exactly
one scalar occurrence ends up with that scalar itself. -/
theorem c5_grouping_amended (nested : List Nat → Option Json) (cfg : BytesEncoding)
    (first_layer : Bool) (fields : List Field) (n : Nat)
    (h1 : ∀ fld ∈ fields, (fieldJson nested cfg fld.value).isSome = true) :
    (∀ v1 v2, fieldOcc nested cfg fields n = [v1, v2] → v1.isScalar = true →
      v2.isScalar = true →
      ∃ m, processFields nested cfg first_layer fields [] = some m ∧
        m.lookup n = some (.arr [v1, v2])) ∧
      (∀ v, fieldOcc nested cfg fields n = [v] → v.isScalar = true →
        ∃ m, processFields nested cfg first_layer fields [] = some m ∧
          m.lookup n = some v) := by
  obtain ⟨m2, hm2, hlook⟩ := processFields_lookup nested cfg first_layer fields [] h1
  constructor
  · intro v1 v2 hocc hs1 _
    refine ⟨m2, hm2, ?_⟩
    rw [hlook n, hocc]
    simp [List.lookup, jstep, jstepVal_scalar v1 v2 hs1]
  · intro v hocc _
    refine ⟨m2, hm2, ?_⟩
    rw [hlook n, hocc]
    simp [List.lookup, jstep]

/-- Witness for `c5_grouping_amended`: two varint fields numbered 1 with values 5
and 7 group into the array `[5, 7]`, and a lone varint field numbered 2 with value
9 stays a scalar. -/
theorem c5_witness :
    (∃ m, processFields (fun _ => none) .Auto true
        [⟨1, .Varint 5⟩, ⟨1, .Varint 7⟩] [] = some m ∧
      m.lookup 1 = some (.arr [.num 5, .num 7])) ∧
      ∃ m, processFields (fun _ => none) .Auto true [⟨2, .Varint 9⟩] [] = some m ∧
        m.lookup 2 = some (.num 9) :=
  ⟨(c5_grouping_amended (fun _ => none) .Auto true [⟨1, .Varint 5⟩, ⟨1, .Varint 7⟩] 1
      (by decide)).1 (.num 5) (.num 7) rfl rfl rfl,
    (c5_grouping_amended (fun _ => none) .Auto true [⟨2, .Varint 9⟩] 2
      (by decide)).2 (.num 9) rfl rfl⟩

/-- C6 counterexample: under the `ByteArray` policy, on a buffer with two bytes
fields numbered 1 (spans `[1, 2]` and `[3, 4]`), the output key 1 does not hold the
flat merge `[1, 2, 3, 4]`: the second byte array is pushed as a single trailing
element, yielding `[1, 2, [3, 4]]`. -/
theorem c6_counterexample :
    parse .ByteArray [10, 2, 1, 2, 10, 2, 3, 4] =
      some (.obj [(1, .arr [.num 1, .num 2, .arr [.num 3, .num 4]])]) ∧
      Json.arr [.num 1, .num 2, .arr [.num 3, .num 4]] ≠
        Json.arr [.num 1, .num 2, .num 3, .num 4] :=
  ⟨rfl, by simp⟩

/-- C6 amended: when a key already holds a JSON array (as a `ByteArray`-encoded
bytes field does), a repeated occurrence is pushed into that array as one trailing
element — the two values are not wrapped into a two-element array, and an array of
exactly the two byte arrays is never formed; on the concrete buffer of the
counterexample this yields `[1, 2, [3, 4]]`. -/
theorem c6_bytearray_push_amended (m : List (Nat × Json)) (key : Nat)
    (xs : List Json) (v : Json) (h : m.lookup key = some (.arr xs)) :
    (updateMap m key v).lookup key = some (.arr (xs ++ [v])) ∧
      parse .ByteArray [10, 2, 1, 2, 10, 2, 3, 4] =
        some (.obj [(1, .arr [.num 1, .num 2, .arr [.num 3, .num 4]])]) := by
  refine ⟨?_, rfl⟩
  rw [updateMap_lookup, if_pos rfl, h]
  rfl

/-- Witness for `c6_bytearray_push_amended` at a concrete one-entry map. -/
theorem c6_witness :
    (updateMap [(1, .arr [.num 0])] 1 (.num 7)).lookup 1 =
      some (.arr [.num 0, .num 7]) ∧
      parse .ByteArray [10, 2, 1, 2, 10, 2, 3, 4] =
        some (.obj [(1, .arr [.num 1, .num 2, .arr [.num 3, .num 4]])]) :=
  c6_bytearray_push_amended [(1, .arr [.num 0])] 1 [.num 0] (.num 7) rfl

theorem and127_small : ∀ x < 128, x &&& 127 = x := by decide
theorem and128_small : ∀ x < 128, x &&& 128 = 0 := by decide
theorem and127_big : ∀ x < 128, (x + 128) &&& 127 = x := by decide
theorem and128_big : ∀ x < 128, (x + 128) &&& 128 = 128 := by decide

theorem lor_eq_add_of_lt (r x s : Nat) (h : r < 2 ^ s) :
    r ||| x * 2 ^ s = r + x * 2 ^ s := by
  apply Nat.eq_of_testBit_eq
  intro i
  rw [Nat.testBit_lor, show r + x * 2 ^ s = 2 ^ s * x + r by ring,
    Nat.testBit_mul_pow_two_add x h i]
  by_cases hi : i < s
  · rw [if_pos hi]
    have hx : (x * 2 ^ s).testBit i = false := by
      rw [← Nat.shiftLeft_eq, Nat.testBit_shiftLeft]
      simp [Nat.not_le.mpr hi]
    simp [hx]
  · rw [if_neg hi]
    have hs : s ≤ i := Nat.not_lt.mp hi
    have hr : r.testBit i = false :=
      Nat.testBit_eq_false_of_lt
        (lt_of_lt_of_le h (Nat.pow_le_pow_right (by norm_num) hs))
    rw [← Nat.shiftLeft_eq, Nat.testBit_shiftLeft]
    simp [hr, hs]

theorem decode_encodeVarAux (f : Nat) :
    ∀ v rest r s, v < 128 ^ f → r < 2 ^ s → v * 2 ^ s < 2 ^ 64 →
      decodeVarLoop (encodeVarAux f v ++ rest) r s =
        (true, r + v * 2 ^ s, s + 7 * (encodeVarAux f v).length) := by
  induction f with
  | zero =>
    intro v rest r s hv hr hlt
    have hv0 : v = 0 := by simpa using hv
    subst hv0
    simp [encodeVarAux, decodeVarLoop]
  | succ fuel ih =>
    intro v rest r s hv hr hlt
    by_cases hsmall : v < 128
    · have hand7 : v &&& 127 = v := and127_small v hsmall
      have hand8 : v &&& 128 = 0 := and128_small v hsmall
      have hmod : v <<< s % 2 ^ 64 = v * 2 ^ s := by
        rw [Nat.shiftLeft_eq, Nat.mod_eq_of_lt hlt]
      simp only [encodeVarAux, if_pos hsmall, List.cons_append, List.nil_append,
        decodeVarLoop, hand7, hand8, hmod, lor_eq_add_of_lt r v s hr]
      simp
    · have hx : v % 128 < 128 := Nat.mod_lt _ (by norm_num)
      have hand7 : (v % 128 + 128) &&& 127 = v % 128 := and127_big _ hx
      have hand8 : (v % 128 + 128) &&& 128 = 128 := and128_big _ hx
      have hle : v % 128 * 2 ^ s < 2 ^ 64 :=
        lt_of_le_of_lt (Nat.mul_le_mul_right _ (Nat.mod_le v 128)) hlt
      have hmod : (v % 128) <<< s % 2 ^ 64 = v % 128 * 2 ^ s := by
        rw [Nat.shiftLeft_eq, Nat.mod_eq_of_lt hle]
      have hs7 : ¬s + 7 > 63 := by
        have h1 : 2 ^ (s + 7) ≤ v * 2 ^ s := by
          rw [pow_add]
          calc 2 ^ s * 2 ^ 7 = 2 ^ 7 * 2 ^ s := by ring
          _ ≤ v * 2 ^ s := Nat.mul_le_mul_right _ (by omega)
        have h2 : 2 ^ (s + 7) < 2 ^ 64 := lt_of_le_of_lt h1 hlt
        have := (Nat.pow_lt_pow_iff_right (by norm_num : 1 < 2)).mp h2
        omega
      have hdiv : v / 128 < 128 ^ fuel := by
        rw [pow_succ, mul_comm] at hv
        exact Nat.div_lt_of_lt_mul hv
      have hr2 : r + v % 128 * 2 ^ s < 2 ^ (s + 7) := by
        have hpow : (2 : Nat) ^ (s + 7) = 128 * 2 ^ s := by rw [pow_add]; ring
        have h127 : v % 128 * 2 ^ s ≤ 127 * 2 ^ s :=
          Nat.mul_le_mul_right _ (by omega)
        calc r + v % 128 * 2 ^ s < 2 ^ s + 127 * 2 ^ s := by omega
          _ = 128 * 2 ^ s := by ring
          _ = 2 ^ (s + 7) := hpow.symm
      have hlt2 : v / 128 * 2 ^ (s + 7) < 2 ^ 64 := by
        have hpow : (2 : Nat) ^ (s + 7) = 128 * 2 ^ s := by rw [pow_add]; ring
        rw [hpow]
        have h1 : v / 128 * (128 * 2 ^ s) ≤ v * 2 ^ s := by
          rw [← Nat.mul_assoc]
          exact Nat.mul_le_mul_right _ (by omega)
        omega
      have hrec := ih (v / 128) rest (r + v % 128 * 2 ^ s) (s + 7) hdiv hr2 hlt2
      simp only [encodeVarAux, if_neg hsmall, List.cons_append, decodeVarLoop,
        hand7, hand8, hmod, lor_eq_add_of_lt r (v % 128) s hr]
      rw [if_neg (by simp [hs7])]
      rw [hrec]
      have hsplit : r + v % 128 * 2 ^ s + v / 128 * 2 ^ (s + 7) = r + v * 2 ^ s := by
        have hpow : 2 ^ (s + 7) = 128 * 2 ^ s := by rw [pow_add]; ring
        have hvm : v % 128 + 128 * (v / 128) = v := Nat.mod_add_div v 128
        calc r + v % 128 * 2 ^ s + v / 128 * 2 ^ (s + 7)
            = r + (v % 128 + 128 * (v / 128)) * 2 ^ s := by rw [hpow]; ring
          _ = r + v * 2 ^ s := by rw [hvm]
      rw [hsplit]
      simp only [List.length_cons, Prod.mk.injEq]
      refine ⟨trivial, trivial, ?_⟩
      omega

/-- C10: for every `u64` value, encoding with the standard base-128
continuation-bit varint encoding and decoding with `decode_var` returns the
original value with the whole encoding consumed; the maximal `u64` value encodes to
exactly 10 bytes and decodes back. -/
theorem c10_varint_roundtrip (v : Nat) (h : v < 2 ^ 64) :
    decode_var (encode_var v) = some (v, []) ∧
      (encode_var (2 ^ 64 - 1)).length = 10 ∧
      decode_var (encode_var (2 ^ 64 - 1)) = some (2 ^ 64 - 1, []) := by
  refine ⟨?_, by decide, by decide⟩
  have hv : v < 128 ^ 10 := lt_of_lt_of_le h (by norm_num)
  have hloop := decode_encodeVarAux 10 v [] 0 0 hv (by norm_num) (by simpa using h)
  rw [List.append_nil] at hloop
  unfold decode_var encode_var
  rw [show encodeVarAux 10 v = encode_var v from rfl] at hloop ⊢
  rw [hloop]
  simp only [Nat.zero_add, Nat.mul_div_cancel_left _ (by norm_num : 0 < 7)]
  rw [List.drop_length]
  simp

/-- Witness for `c10_varint_roundtrip` at the value 300. -/
theorem c10_witness :
    decode_var (encode_var 300) = some (300, []) ∧
      (encode_var (2 ^ 64 - 1)).length = 10 ∧
      decode_var (encode_var (2 ^ 64 - 1)) = some (2 ^ 64 - 1, []) :=
  c10_varint_roundtrip 300 (by decide)

/-- C3 counterexample: under the `ByteArray` policy, the valid-UTF-8,
control-character-free span `AB` (`[65, 66]`) inside `[0x12, 0x02, 0x41, 0x42]` is
rendered as the JSON array `[65, 66]`, not as a JSON string leaf. -/
theorem c3_counterexample :
    parse .ByteArray [18, 2, 65, 66] = some (.obj [(2, .arr [.num 65, .num 66])]) ∧
      utf8Decode [65, 66] = some [65, 66] ∧
      (([65, 66] : List Nat).all fun c => !isControl c) = true ∧
      (Json.arr [.num 65, .num 66]).isString = false :=
  ⟨rfl, rfl, rfl, rfl⟩

/-- C3 amended: a non-empty span that is valid UTF-8 with no control characters is
always rejected as a nested message candidate (`none` at any non-top level and for
any fuel), so the projector renders it by the configured byte-encoding policy — a
non-object leaf in every case, and a JSON string under every policy except
`ByteArray`, which produces a JSON array of the byte values. -/
theorem c3_utf8_tiebreak_amended (cfg : BytesEncoding) (fuel : Nat)
    (bytes cps : List Nat) (h1 : bytes ≠ []) (h2 : utf8Decode bytes = some cps)
    (h3 : (cps.all fun c => !isControl c) = true) :
    parse_to_json cfg fuel bytes false = none ∧
      fieldJson (fun bs => parse_to_json cfg fuel bs false) cfg
        (.LengthDelimited bytes) = some (encodeBytes cfg bytes) ∧
      (encodeBytes cfg bytes).isObject = false ∧
      (cfg ≠ .ByteArray → (encodeBytes cfg bytes).isString = true) := by
  have hnc : utf8NoControl bytes = true := by
    simp [utf8NoControl, h2, h3]
  have hmain : ∀ f, parse_to_json cfg f bytes false = none := by
    intro f
    match f with
    | 0 => rfl
    | f + 1 =>
      have hemp : bytes.isEmpty = false := by
        simp [List.isEmpty_iff, h1]
      simp [parse_to_json, hemp, hnc]
  refine ⟨hmain fuel, ?_, ?_, ?_⟩
  · simp [fieldJson, hmain]
  · cases cfg <;> simp [encodeBytes, h2, Json.isObject]
  · intro hne
    cases cfg <;> simp_all [encodeBytes, h2, Json.isString]

/-- Witness for `c3_utf8_tiebreak_amended` at the span `AB` under the `Auto`
policy. -/
theorem c3_witness :
    parse_to_json .Auto 3 [65, 66] false = none ∧
      fieldJson (fun bs => parse_to_json .Auto 3 bs false) .Auto
        (.LengthDelimited [65, 66]) = some (encodeBytes .Auto [65, 66]) ∧
      (encodeBytes .Auto [65, 66]).isObject = false ∧
      (BytesEncoding.Auto ≠ .ByteArray → (encodeBytes .Auto [65, 66]).isString = true) :=
  c3_utf8_tiebreak_amended .Auto 3 [65, 66] [65, 66] (by decide) (by decide) (by decide)

/-- C8: at a non-top level, a buffer that is valid UTF-8 whose single-layer parse
left trailing garbage, or decoded any field with a number in the reserved range
19000-19999, is rejected (`none`). -/
theorem c8_nested_garbage_reserved_reject (cfg : BytesEncoding) (fuel : Nat)
    (data cps : List Nat) (h1 : utf8Decode data = some cps)
    (h2 : (parse_once data).garbage.isSome = true ∨
      ((parse_once data).fields.any fun fld =>
        decide (19000 ≤ fld.number) && decide (fld.number < 20000)) = true) :
    parse_to_json cfg fuel data false = none := by
  have hutf : isUtf8 data = true := by simp [isUtf8, h1]
  match fuel with
  | 0 => rfl
  | fuel + 1 =>
    simp only [parse_to_json, Bool.not_false, Bool.true_and]
    split
    · rfl
    · split
      · rfl
      · split
        · rfl
        · split
          · rfl
          next hcond =>
            exfalso
            apply hcond
            rw [hutf]
            rcases h2 with h2 | h2
            · simp [h2]
            · simp [h2]

/-- Witness for `c8_nested_garbage_reserved_reject` at the valid UTF-8 buffer
`a` + U+00E9 (`[0x61, 0xC3, 0xA9]`), whose parse leaves the two bytes of U+00E9 as
garbage. -/
theorem c8_witness : parse_to_json .Auto 3 [97, 195, 169] false = none :=
  c8_nested_garbage_reserved_reject .Auto 3 [97, 195, 169] [97, 233] (by decide)
    (Or.inl (by decide))

/-- C9: the varint decoder either succeeds with a 64-bit value, advancing past at
least one and at most `src.length` consumed bytes, or fails (returning `none`, the
cursor untouched); any buffer all of whose bytes carry the continuation bit — in
particular the empty buffer, a lone continuation-flagged byte, or a truncated
multi-byte sequence — fails. -/
theorem c9_varint_totality (src : List Nat) :
    (∀ v rest, decode_var src = some (v, rest) →
      v < 2 ^ 64 ∧ ∃ k, 1 ≤ k ∧ k ≤ src.length ∧ rest = src.drop k) ∧
      ((∀ b ∈ src, b &&& 128 ≠ 0) → decode_var src = none) :=
  ⟨fun v rest h => decode_var_some src v rest h, decode_var_none_of_msb src⟩

/-- Witness for `c9_varint_totality`: success on `[0xAC, 0x02]` (the varint 300)
and failure on the empty buffer, on `[0x80]` and on `[0xFF, 0xFF, 0xFF]`. -/
theorem c9_witness :
    (300 < 2 ^ 64 ∧ ∃ k, 1 ≤ k ∧ k ≤ ([172, 2] : List Nat).length ∧
      ([] : List Nat) = ([172, 2] : List Nat).drop k) ∧
      decode_var [] = none ∧ decode_var [128] = none ∧
      decode_var [255, 255, 255] = none :=
  ⟨(c9_varint_totality [172, 2]).1 300 [] (by decide),
    (c9_varint_totality []).2 (by decide),
    (c9_varint_totality [128]).2 (by decide),
    (c9_varint_totality [255, 255, 255]).2 (by decide)⟩

end Pb2Json
